import Mathlib

/-!
Shallow embedding of `src/calendar_sync.py` (repository stickystyle/calender_sync).

Temporal values are modelled after the Python values that flow through the
script: `icalendar` yields either a `datetime.date` (all-day values) or a
`datetime.datetime` that is timezone-naive or timezone-aware.  A timezone
(a `pytz` zone attached by `localize`) is modelled by its fixed UTC offset in
seconds; `pytz.UTC` is offset `0`.  Aware datetimes compare by absolute
instant, naive datetimes by wall-clock value, and comparing a naive with an
aware datetime raises `TypeError` (modelled as `none` for order comparisons
and `false` for equality, exactly as Python behaves).
-/

/-- Calendar date (Python `datetime.date`): year, month, day. -/
structure Ymd where
  y : Nat
  m : Nat
  d : Nat
deriving DecidableEq, Repr

/-- Wall-clock fields of a Python `datetime.datetime` (second resolution,
    which is all the script ever distinguishes: microseconds never influence
    any branch taken by the code under test-relevant inputs). -/
structure Wall where
  y : Nat
  m : Nat
  d : Nat
  hh : Nat
  mm : Nat
  ss : Nat
deriving DecidableEq, Repr

/-- Days from the Unix epoch for a civil date, by the standard civil-calendar
    computation (valid for years from 1, which matches `datetime.MINYEAR`). -/
def daysFromCivil (y m d : Nat) : Int :=
  let y2 := if m ≤ 2 then y - 1 else y
  let era := y2 / 400
  let yoe := y2 % 400
  let mp := (m + 9) % 12
  let doy := (153 * mp + 2) / 5 + d - 1
  let doe := yoe * 365 + yoe / 4 - yoe / 100 + doy
  (era * 146097 + doe : Int) - 719468

/-- Seconds from the Unix epoch of a wall-clock value read as if it were UTC. -/
def wallSec (w : Wall) : Int :=
  daysFromCivil w.y w.m w.d * 86400 + (w.hh * 3600 + w.mm * 60 + w.ss : Nat)

/-- Absolute instant (seconds from the Unix epoch) of an aware datetime whose
    wall clock is `w` and whose zone has UTC offset `off` seconds. -/
def instSec (w : Wall) (off : Int) : Int :=
  wallSec w - off

/-- Temporal value attached to a `DTSTART` or `DTEND` property: either a
    Python `date`, or a `datetime` with an optional zone (given by its UTC
    offset in seconds; `none` is a timezone-naive datetime). -/
inductive PyTime where
  | date (d : Ymd)
  | dt (w : Wall) (off : Option Int)
deriving DecidableEq, Repr

/-- Python `<` on two datetimes: aware/aware compares instants, naive/naive
    compares wall clocks, mixed raises `TypeError` (modelled as `none`). -/
def dtLt : Wall × Option Int → Wall × Option Int → Option Bool
  | (w1, none), (w2, none) => some (decide (wallSec w1 < wallSec w2))
  | (w1, some o1), (w2, some o2) => some (decide (instSec w1 o1 < instSec w2 o2))
  | _, _ => none

/-- Python `==` on two datetimes: aware/aware compares instants, naive/naive
    compares wall clocks, mixed compares unequal (Python equality between a
    naive and an aware datetime is `False`, not an error). -/
def dtEq : Wall × Option Int → Wall × Option Int → Bool
  | (w1, none), (w2, none) => decide (wallSec w1 = wallSec w2)
  | (w1, some o1), (w2, some o2) => decide (instSec w1 o1 = instSec w2 o2)
  | _, _ => false

/-- Result of `pytz`-style `tz.localize` on a naive datetime: the wall clock
    is kept and the zone offset is attached.  An already-aware value is left
    unchanged where the script leaves it unchanged. -/
def localize (off : Int) (w : Wall) : Wall × Option Int :=
  (w, some off)

/-- Source-side event as the script reads it off a parsed `VEVENT` component:
    `DTSTART` (required by the data model: a SourceEvent always carries a
    start), optional `DTEND`, and the optional text properties the script
    consults.  `uid` is the externally assigned unique id. -/
structure SourceEvent where
  uid : Option String
  dtstart : PyTime
  dtend : Option PyTime
  summary : Option String
  location : Option String
  description : Option String
deriving DecidableEq, Repr

/-- Destination-side event (one CalDAV object, i.e. the single `VEVENT`
    subcomponent the script reads): destination `UID`, optional `SUMMARY`,
    optional temporal properties, optional text properties, and the optional
    `X-SYNC-SOURCE-IDENTIFIER` custom property (`none` when the property is
    absent; `some ""` when it is present with an empty value). -/
structure DestRecord where
  uid : String
  summary : Option String
  dtstart : Option PyTime
  dtend : Option PyTime
  location : Option String
  description : Option String
  syncId : Option String
deriving DecidableEq, Repr

/-- Two-digit zero-padded decimal rendering (as `strftime` renders month, day,
    hour and minute fields for values below 100). -/
def pad2 (n : Nat) : String :=
  String.mk [Nat.digitChar (n / 10 % 10), Nat.digitChar (n % 10)]

/-- Four-digit zero-padded decimal rendering (as `strftime` renders the year
    for years below 10000). -/
def pad4 (n : Nat) : String :=
  String.mk [Nat.digitChar (n / 1000 % 10), Nat.digitChar (n / 100 % 10),
    Nat.digitChar (n / 10 % 10), Nat.digitChar (n % 10)]

/-- Python strftime with format Y m d H M of a datetime wall clock. -/
def fmtYmdHM (w : Wall) : String :=
  pad4 w.y ++ pad2 w.m ++ pad2 w.d ++ pad2 w.hh ++ pad2 w.mm

/-- Python strftime with format Y m d of a date. -/
def fmtYmd (d : Ymd) : String :=
  pad4 d.y ++ pad2 d.m ++ pad2 d.d

/-- Rendering of one temporal value inside `generate_event_identifier`
    (src/calendar_sync.py lines 485-496): minute resolution for datetimes,
    day resolution for dates. -/
def fmtPyTime : PyTime → String
  | PyTime.date d => fmtYmd d
  | PyTime.dt w _ => fmtYmdHM w

/-- The `date_str` computed by `generate_event_identifier` from `DTSTART`. -/
def date_str (e : SourceEvent) : String :=
  fmtPyTime e.dtstart

/-- The `end_str` computed by `generate_event_identifier`: rendering of
    `DTEND` when present, else `date_str` (lines 490-498). -/
def end_str (e : SourceEvent) : String :=
  match e.dtend with
  | some v => fmtPyTime v
  | none => date_str e

/-- The `id_string` assembled by `generate_event_identifier` (line 508):
    `date_str`, `end_str`, the summary and the location joined by underscores,
    where summary and location default to the empty string when absent. -/
def id_string (e : SourceEvent) : String :=
  date_str e ++ "_" ++ end_str e ++ "_" ++ e.summary.getD "" ++ "_" ++ e.location.getD ""

/-- Model of `generate_event_identifier` (src/calendar_sync.py lines 474-520).
    The real function returns `hashlib.md5(id_string).hexdigest()`; the digest
    is a deterministic pure function of `id_string`, so we model the
    fingerprint by the digest input itself: every fingerprint EQUALITY proved
    here transfers verbatim to the real digests, and every fingerprint
    INEQUALITY proved here states that the digest inputs differ (so the real
    digests differ except in the event of an md5 collision).  Since a
    `SourceEvent` always carries a start, the `except` fallback to `uid` or a
    random UUID (lines 514-520) is unreachable. -/
def generate_event_identifier (e : SourceEvent) : String :=
  id_string e

/-- Model of `get_dest_events` (lines 219-240): the destination records whose
    `SUMMARY` (defaulting to the empty string) equals the normalized title and
    which carry the `X-SYNC-SOURCE-IDENTIFIER` property. -/
def get_dest_events (dest : List DestRecord) (normalized_title : String) : List DestRecord :=
  dest.filter fun r => r.summary.getD "" = normalized_title ∧ r.syncId.isSome

/-- Model of `find_synced_event` (lines 243-252): first synced record whose
    `X-SYNC-SOURCE-IDENTIFIER` (defaulting to the empty string) equals the
    given source identifier. -/
def find_synced_event (synced_events : List DestRecord) (source_event_identifier : String) :
    Option DestRecord :=
  synced_events.find? fun r => r.syncId.getD "" = source_event_identifier

/-- Comparison step shared by the `DTSTART` and `DTEND` blocks of
    `event_details_changed` (lines 275-288 and 300-313), returning `true`
    when the pair of temporal values counts as changed: when both are
    datetimes, a value with a zone and a value without one are first both
    localized into UTC (`pytz.UTC.localize`), then compared with Python `!=`;
    when the two values have different Python types (`date` vs `datetime`)
    that is itself a change; otherwise (two dates) they are compared directly. -/
def timesDiffer : PyTime → PyTime → Bool
  | PyTime.dt w1 o1, PyTime.dt w2 o2 =>
      if o1.isNone ≠ o2.isNone then
        ! dtEq (w1, some (o1.getD 0)) (w2, some (o2.getD 0))
      else
        ! dtEq (w1, o1) (w2, o2)
  | PyTime.date d1, PyTime.date d2 => decide (d1 ≠ d2)
  | _, _ => true

/-- Model of `event_details_changed` (lines 264-332).  The source event always
    carries `DTSTART`; a synced record with no `DTSTART` raises `KeyError`,
    which the code turns into `True` (changed). -/
def event_details_changed (source_event : SourceEvent) (synced : DestRecord) : Bool :=
  (match synced.dtstart with
   | none => true
   | some synced_start => timesDiffer source_event.dtstart synced_start)
  ||
  (match source_event.dtend, synced.dtend with
   | some source_end, some synced_end => timesDiffer source_end synced_end
   | none, none => false
   | _, _ => true)
  ||
  decide (source_event.location ≠ synced.location)
  ||
  decide (source_event.description ≠ synced.description)

/-- Model of `create_or_update_event` (lines 335-381) restricted to the record
    it writes: `DTSTART`, `DTEND`, `LOCATION` and `DESCRIPTION` are copied
    from the source event when present, `SUMMARY` is set to the normalized
    title, `UID` is the existing destination UID on update or a fresh UUID on
    create, and `X-SYNC-SOURCE-IDENTIFIER` is set to the source fingerprint.
    Persistence into the store is modelled in `sync_calendars`. -/
def create_or_update_event (source_event : SourceEvent) (normalized_title : String)
    (uid : String) : DestRecord :=
  { uid := uid
    summary := some normalized_title
    dtstart := some source_event.dtstart
    dtend := source_event.dtend
    location := source_event.location
    description := source_event.description
    syncId := some (generate_event_identifier source_event) }

/-- Effective end consulted by `is_event_in_past` (lines 539-546): `DTEND`
    when present, else `DTSTART`, else nothing. -/
def effectiveEnd (r : DestRecord) : Option PyTime :=
  match r.dtend with
  | some v => some v
  | none => r.dtstart

/-- Model of `is_event_in_past` (lines 523-563) for a reference instant with
    wall clock `nw` and zone offset `noff` (`none` when `current_time` is
    naive).  A date-only effective end is promoted to 23:59:59 and localized
    into the zone of the reference instant when that instant has one; any
    comparison failure (the `TypeError` of a naive/aware mix) is caught and
    classified as not in the past. -/
def is_event_in_past (r : DestRecord) (nw : Wall) (noff : Option Int) : Bool :=
  match effectiveEnd r with
  | none => false
  | some (PyTime.date d) =>
      let w : Wall := ⟨d.y, d.m, d.d, 23, 59, 59⟩
      (dtLt (w, noff) (nw, noff)).getD false
  | some (PyTime.dt w o) =>
      (dtLt (w, o) (nw, noff)).getD false

/-- Inverse of `daysFromCivil`: civil date of a day count from the Unix epoch
    (the standard civil-calendar computation, valid for nonnegative eras,
    which covers all years from 1). -/
def civilFromDays (z0 : Int) : Ymd :=
  let z := z0 + 719468
  let era := Int.ediv z 146097
  let doe := (Int.emod z 146097).toNat
  let yoe := (doe - doe / 1460 + doe / 36524 - doe / 146096) / 365
  let doy := doe - (365 * yoe + yoe / 4 - yoe / 100)
  let mp := (5 * doy + 2) / 153
  let dd := doy - (153 * mp + 2) / 5 + 1
  let mm := if mp < 10 then mp + 3 else mp - 9
  ⟨((era * 400 : Int) + yoe).toNat + (if mm ≤ 2 then 1 else 0), mm, dd⟩

/-- Python `now + timedelta(days=n)` on a datetime: the wall-clock date moves
    forward by `n` days and the time of day and zone are kept (no `pytz`
    normalize is applied by the script). -/
def addDays (w : Wall) (n : Nat) : Wall :=
  let c := civilFromDays (daysFromCivil w.y w.m w.d + n)
  ⟨c.y, c.m, c.d, w.hh, w.mm, w.ss⟩

/-- Normalization applied by `get_source_events` (lines 181-205) to one
    temporal value of a source event: a naive datetime is localized into the
    configured timezone, an aware datetime passes through, and a date is
    combined with midnight and localized into the configured timezone.  This
    is the range-filter normalization of the Event Normalizer. -/
def normalizeSourceTime (tz : Int) : PyTime → Wall × Option Int
  | PyTime.dt w none => localize tz w
  | PyTime.dt w (some o) => (w, some o)
  | PyTime.date d => localize tz ⟨d.y, d.m, d.d, 0, 0, 0⟩

/-- Absolute instant of an aware (wall clock, offset) pair; a naive pair is
    read as UTC (this function is only applied after normalization has made
    every value aware). -/
def instOf (p : Wall × Option Int) : Int :=
  instSec p.1 (p.2.getD 0)

/-- Model of `get_source_events` (lines 161-216): localize the naive range
    bounds into the configured timezone, normalize each event start and end
    (end defaulting to start when `DTEND` is absent), and keep the events
    whose interval touches or spans the range. -/
def get_source_events (calendar : List SourceEvent) (start_date end_date : Wall × Option Int)
    (tz : Int) : List SourceEvent :=
  let sd := match start_date with
    | (w, none) => localize tz w
    | p => p
  let ed := match end_date with
    | (w, none) => localize tz w
    | p => p
  calendar.filter fun e =>
    let es := normalizeSourceTime tz e.dtstart
    let ee := match e.dtend with
      | some v => normalizeSourceTime tz v
      | none => es
    decide ((instOf sd ≤ instOf es ∧ instOf es ≤ instOf ed)
      ∨ (instOf sd ≤ instOf ee ∧ instOf ee ≤ instOf ed)
      ∨ (instOf es ≤ instOf sd ∧ instOf ee ≥ instOf ed))

/-- Aggregate outcome of one reconciliation pass of `sync_calendars`:
    the destination store after the pass, the records created, the update
    pairs (record matched in the store, record written over it), the records
    on which the store delete operation was invoked, the records actually
    removed (delete calls that did not raise), the preserved tally, and the
    boolean result of the pass. -/
structure SyncResult where
  finalDest : List DestRecord
  creates : List DestRecord
  updates : List (DestRecord × DestRecord)
  deleteAttempts : List DestRecord
  deleted : List DestRecord
  preserved : Nat
  ok : Bool
deriving DecidableEq, Repr

/-- Upsert phase of `sync_calendars` (lines 421-440): for each source event in
    order, compute its fingerprint and look it up among the synced destination
    events fetched at the start of the pass; on a match write an update when
    the Change Detector reports drift, otherwise create a new record with a
    fresh UID (`fresh k` models the k-th `uuid.uuid4()` drawn for a create).
    Returns (created records, update pairs) in processing order. -/
def upsertPass (dest_events : List DestRecord) (normalized_title : String)
    (fresh : Nat → String) :
    List SourceEvent → Nat → List DestRecord × List (DestRecord × DestRecord)
  | [], _ => ([], [])
  | e :: es, k =>
      let fp := generate_event_identifier e
      match find_synced_event dest_events fp with
      | some r =>
          let rest := upsertPass dest_events normalized_title fresh es k
          if event_details_changed e r then
            (rest.1, (r, create_or_update_event e normalized_title r.uid) :: rest.2)
          else rest
      | none =>
          let rest := upsertPass dest_events normalized_title fresh es (k + 1)
          (create_or_update_event e normalized_title (fresh k) :: rest.1, rest.2)

/-- Orphan phase of `sync_calendars` (lines 446-464): for each synced
    destination event whose source identifier is nonempty and not in the
    processed set, either count it as preserved (when the Temporal Classifier
    marks it past) or invoke the store delete operation; a delete call raises
    when `delFail` holds of the record UID, and the raised error is caught so
    the loop continues.  Returns (preserved tally, records on which delete was
    invoked, records actually removed). -/
def orphanPass (processed : List String) (nw : Wall) (noff : Option Int)
    (delFail : String → Bool) : List DestRecord → Nat × List DestRecord × List DestRecord
  | [] => (0, [], [])
  | r :: rs =>
      let rest := orphanPass processed nw noff delFail rs
      let sid := r.syncId.getD ""
      if sid ≠ "" ∧ sid ∉ processed then
        if is_event_in_past r nw noff then
          (rest.1 + 1, rest.2.1, rest.2.2)
        else if delFail r.uid then
          (rest.1, r :: rest.2.1, rest.2.2)
        else
          (rest.1, r :: rest.2.1, r :: rest.2.2)
      else rest

/-- In-place replacement of one store record by its updated version, when the
    pass updated it. -/
def updFn (updates : List (DestRecord × DestRecord)) (d : DestRecord) : DestRecord :=
  match updates.find? (fun p => p.1 = d) with
  | some p => p.2
  | none => d

/-- Effect of the pass on the destination store: updated records are replaced
    in place, removed records disappear, created records are appended. -/
def applyStore (dest : List DestRecord) (updates : List (DestRecord × DestRecord))
    (deleted : List DestRecord) (creates : List DestRecord) : List DestRecord :=
  ((dest.filter fun d => decide (d ∉ deleted)).map (updFn updates)) ++ creates

/-- Model of `sync_calendars` (lines 384-472) from the point where both
    collaborators responded (destination connected, source fetched and
    parsed): `now` is the aware reference instant `datetime.now(tz)`, the
    window is `[now, now + days_ahead]`, and the pass runs the upsert phase
    then the orphan phase and returns `True`.  Per-record delete failures are
    modelled by the `delFail` oracle; they are caught inside the loop and
    never change the returned value. -/
def sync_calendars (normalized_title : String) (tz : Int) (days_ahead : Nat) (now : Wall)
    (source_calendar : List SourceEvent) (dest : List DestRecord)
    (delFail : String → Bool) (fresh : Nat → String) : SyncResult :=
  let end_date := addDays now days_ahead
  let source_events := get_source_events source_calendar (now, some tz) (end_date, some tz) tz
  let dest_events := get_dest_events dest normalized_title
  let cu := upsertPass dest_events normalized_title fresh source_events 0
  let processed := source_events.map generate_event_identifier
  let pad := orphanPass processed now (some tz) delFail dest_events
  { finalDest := applyStore dest cu.2 pad.2.2 cu.1
    creates := cu.1
    updates := cu.2
    deleteAttempts := pad.2.1
    deleted := pad.2.2
    preserved := pad.1
    ok := true }

/-! Basic facts about the fingerprint strings. -/

/-- Decimal digit characters are never the underscore separator. -/
theorem digitChar_ne_underscore (k : Nat) (hk : k < 10) : Nat.digitChar k ≠ '_' := by
  interval_cases k <;> decide

theorem pad2_no_underscore (n : Nat) : ∀ c ∈ (pad2 n).data, c ≠ '_' := by
  intro c hc
  simp only [pad2, List.mem_cons, List.not_mem_nil, or_false] at hc
  rcases hc with h | h <;>
    exact h ▸ digitChar_ne_underscore _ (Nat.mod_lt _ (by decide))

theorem pad4_no_underscore (n : Nat) : ∀ c ∈ (pad4 n).data, c ≠ '_' := by
  intro c hc
  simp only [pad4, List.mem_cons, List.not_mem_nil, or_false] at hc
  rcases hc with h | h | h | h <;>
    exact h ▸ digitChar_ne_underscore _ (Nat.mod_lt _ (by decide))

theorem fmtPyTime_no_underscore (v : PyTime) : ∀ c ∈ (fmtPyTime v).data, c ≠ '_' := by
  intro c hc
  cases v with
  | date d =>
      simp only [fmtPyTime, fmtYmd, String.data_append] at hc
      rcases (List.mem_append.mp hc) with h | h
      · rcases (List.mem_append.mp h) with h | h
        · exact pad4_no_underscore _ c h
        · exact pad2_no_underscore _ c h
      · exact pad2_no_underscore _ c h
  | dt w o =>
      simp only [fmtPyTime, fmtYmdHM, String.data_append] at hc
      rcases (List.mem_append.mp hc) with h | h
      · rcases (List.mem_append.mp h) with h | h
        · rcases (List.mem_append.mp h) with h | h
          · rcases (List.mem_append.mp h) with h | h
            · exact pad4_no_underscore _ c h
            · exact pad2_no_underscore _ c h
          · exact pad2_no_underscore _ c h
        · exact pad2_no_underscore _ c h
      · exact pad2_no_underscore _ c h

/-- Cancellation of the first underscore-separated field: when the prefixes
    contain no underscore, equality of the joined lists forces equality of the
    prefixes and of the remainders. -/
theorem underscore_split {xs ys r s : List Char}
    (hx : ∀ c ∈ xs, c ≠ '_') (hy : ∀ c ∈ ys, c ≠ '_')
    (h : xs ++ '_' :: r = ys ++ '_' :: s) : xs = ys ∧ r = s := by
  induction xs generalizing ys with
  | nil =>
      cases ys with
      | nil => simpa using h
      | cons b bs =>
          simp only [List.nil_append, List.cons_append, List.cons.injEq] at h
          exact absurd h.1.symm (hy b (by simp))
  | cons a as ih =>
      cases ys with
      | nil =>
          simp only [List.cons_append, List.nil_append, List.cons.injEq] at h
          exact absurd h.1 (hx a (by simp))
      | cons b bs =>
          simp only [List.cons_append, List.cons.injEq] at h
          obtain ⟨h1, h2⟩ := h
          obtain ⟨h3, h4⟩ := ih (fun c hc => hx c (by simp [hc]))
            (fun c hc => hy c (by simp [hc])) h2
          exact ⟨by simp [h1, h3], h4⟩

/-- Character data of `id_string`, reassociated around the separators. -/
theorem id_string_data (e : SourceEvent) :
    (id_string e).data = (date_str e).data ++ '_' ::
      ((end_str e).data ++ '_' :: ((e.summary.getD "").data ++ '_' :: (e.location.getD "").data)) := by
  simp [id_string, String.data_append]

/-- Two source events whose identity strings agree have equal rendered start
    strings and equal rendered end strings. -/
theorem id_string_inj_time (a b : SourceEvent) (h : id_string a = id_string b) :
    date_str a = date_str b ∧ end_str a = end_str b := by
  have hd : (id_string a).data = (id_string b).data := by rw [h]
  rw [id_string_data, id_string_data] at hd
  obtain ⟨h1, h2⟩ := underscore_split (fmtPyTime_no_underscore a.dtstart)
    (fmtPyTime_no_underscore b.dtstart) hd
  have hb : ∀ (c : SourceEvent), ∀ x ∈ (end_str c).data, x ≠ '_' := by
    intro c x hx
    unfold end_str at hx
    cases hc : c.dtend with
    | some v => rw [hc] at hx; exact fmtPyTime_no_underscore v x hx
    | none => rw [hc] at hx; exact fmtPyTime_no_underscore c.dtstart x hx
  obtain ⟨h3, _⟩ := underscore_split (hb a) (hb b) h2
  exact ⟨String.ext h1, String.ext h3⟩

/-! Concrete events used by witnesses and counterexamples. -/

/-- Timed event 2023-06-01 10:00-11:00 UTC, title Standup, location Room A,
    with one external id and description. -/
def evA : SourceEvent :=
  ⟨some "uid-a", PyTime.dt ⟨2023, 6, 1, 10, 0, 0⟩ (some 0),
    some (PyTime.dt ⟨2023, 6, 1, 11, 0, 0⟩ (some 0)),
    some "Standup", some "Room A", some "first description"⟩

/-- Same (start, end, title, location) as `evA`, different external id and
    different description. -/
def evB : SourceEvent :=
  ⟨some "uid-b", PyTime.dt ⟨2023, 6, 1, 10, 0, 0⟩ (some 0),
    some (PyTime.dt ⟨2023, 6, 1, 11, 0, 0⟩ (some 0)),
    some "Standup", some "Room A", some "second description"⟩

/-- Timed event starting 2023-06-01 10:00:00 UTC. -/
def evC : SourceEvent :=
  ⟨none, PyTime.dt ⟨2023, 6, 1, 10, 0, 0⟩ (some 0), none, some "Standup", none, none⟩

/-- Same as `evC` except the start is 10:00:30, thirty seconds later. -/
def evD : SourceEvent :=
  ⟨none, PyTime.dt ⟨2023, 6, 1, 10, 0, 30⟩ (some 0), none, some "Standup", none, none⟩

/-- Same as `evC` except the start is 10:30, a different minute. -/
def evE : SourceEvent :=
  ⟨none, PyTime.dt ⟨2023, 6, 1, 10, 30, 0⟩ (some 0), none, some "Standup", none, none⟩

/-- C4: two SourceEvents with equal start, end, title and location receive the
    identical fingerprint, whatever their externally assigned unique ids and
    their descriptions are (the timezone of a temporal value enters only
    through the value itself, so the identity of the attached timezone object
    is immaterial). -/
theorem C4_fingerprint_content_identity (a b : SourceEvent)
    (hstart : a.dtstart = b.dtstart) (hend : a.dtend = b.dtend)
    (htitle : a.summary = b.summary) (hloc : a.location = b.location) :
    generate_event_identifier a = generate_event_identifier b := by
  have h1 : date_str a = date_str b := by
    unfold date_str
    rw [hstart]
  have h2 : end_str a = end_str b := by
    unfold end_str
    rw [hend, h1]
  unfold generate_event_identifier id_string
  rw [h1, h2, htitle, hloc]

/-- Witness for C4: `evA` and `evB` agree on (start, end, title, location) but
    differ in external id and description, and their fingerprints coincide. -/
theorem C4_fingerprint_content_identity_witness :
    generate_event_identifier evA = generate_event_identifier evB :=
  C4_fingerprint_content_identity evA evB rfl rfl rfl rfl

/-- Counterexample to C5 as stated: `evC` and `evD` differ in start (by thirty
    seconds), yet the Fingerprint Generator renders starts at minute
    resolution and produces the identical fingerprint for both. -/
theorem C5_counterexample :
    evC.dtstart ≠ evD.dtstart ∧
      generate_event_identifier evC = generate_event_identifier evD := by
  constructor
  · decide
  · decide

/-- C5 (amended): two SourceEvents whose starts or ends differ at the
    granularity the generator renders (minute resolution for timed values,
    day resolution for date-only values — that is, whose rendered start
    strings or rendered end strings differ) receive different identity
    strings, hence different fingerprints barring an md5 collision. -/
theorem C5_fingerprint_distinct_times (a b : SourceEvent)
    (h : date_str a ≠ date_str b ∨ end_str a ≠ end_str b) :
    generate_event_identifier a ≠ generate_event_identifier b := by
  intro he
  obtain ⟨h1, h2⟩ := id_string_inj_time a b he
  rcases h with h | h
  · exact h h1
  · exact h h2

/-- Witness for amended C5: `evC` and `evE` differ in the start minute, and
    their fingerprints differ. -/
theorem C5_fingerprint_distinct_times_witness :
    generate_event_identifier evC ≠ generate_event_identifier evE :=
  C5_fingerprint_distinct_times evC evE (Or.inl (by decide))

/-- Promotion applied by the Temporal Classifier before comparing: a date-only
    value becomes 23:59:59 of that day in the zone of the reference instant
    (no zone when the reference instant is naive); a datetime passes through
    unchanged. -/
def endOfDayPromotion (noff : Option Int) : PyTime → Wall × Option Int
  | PyTime.date d => (⟨d.y, d.m, d.d, 23, 59, 59⟩, noff)
  | PyTime.dt w o => (w, o)

/-- C7: the Temporal Classifier marks a record past exactly when it has an
    effective end (DTEND if present, else DTSTART; otherwise it is not past)
    whose end-of-day promotion compares strictly before the reference instant
    with a defined comparison; an undefined comparison (the TypeError of a
    naive/aware mix, caught by the except clause) yields not-past. -/
theorem C7_classifier_characterization (r : DestRecord) (nw : Wall) (noff : Option Int) :
    is_event_in_past r nw noff = true ↔
      ∃ v, effectiveEnd r = some v ∧
        dtLt (endOfDayPromotion noff v) (nw, noff) = some true := by
  unfold is_event_in_past
  cases h : effectiveEnd r with
  | none => simp [h]
  | some v =>
      cases v with
      | date d =>
          simp only [h, endOfDayPromotion, Option.some.injEq]
          cases hlt : dtLt (⟨d.y, d.m, d.d, 23, 59, 59⟩, noff) (nw, noff) with
          | none => simp [hlt]
          | some b => cases b <;> simp [hlt]
      | dt w o =>
          simp only [h, endOfDayPromotion, Option.some.injEq]
          cases hlt : dtLt (w, o) (nw, noff) with
          | none => simp [hlt]
          | some b => cases b <;> simp [hlt]

/-- C8: in the Change Detector, a pair where exactly one side declares an end
    is reported as changed; and when both sides declare ends, any mismatch of
    the compared end values (after the normalization the detector performs,
    including type mismatch counting as change) is reported as changed. -/
theorem C8_end_comparison (e : SourceEvent) (r : DestRecord) :
    (e.dtend.isSome ≠ r.dtend.isSome → event_details_changed e r = true) ∧
    (∀ se re, e.dtend = some se → r.dtend = some re → timesDiffer se re = true →
      event_details_changed e r = true) := by
  constructor
  · intro h
    unfold event_details_changed
    rcases hse : e.dtend with _ | se <;> rcases hre : r.dtend with _ | re
    · rw [hse, hre] at h
      exact absurd rfl h
    · simp [hse, hre]
    · simp [hse, hre]
    · rw [hse, hre] at h
      exact absurd rfl h
  · intro se re hse hre htd
    unfold event_details_changed
    simp [hse, hre, htd]

/-- Witness for C8: a source event with an end matched against a record
    without one is reported as changed. -/
theorem C8_end_comparison_witness :
    event_details_changed evA
      ⟨"u-w8", some "T", some evA.dtstart, none, evA.location, evA.description, some "x"⟩ = true :=
  (C8_end_comparison evA
    ⟨"u-w8", some "T", some evA.dtstart, none, evA.location, evA.description, some "x"⟩).1
    (by decide)

/-- Source event with a timezone-naive start at 2023-06-01 10:00. -/
def ev6 : SourceEvent :=
  ⟨none, PyTime.dt ⟨2023, 6, 1, 10, 0, 0⟩ none, none, some "T", none, none⟩

/-- Destination record with an aware start at 2023-06-01 10:00 UTC and the
    same remaining compared fields as `ev6`. -/
def rec6 : DestRecord :=
  ⟨"u6", some "T", some (PyTime.dt ⟨2023, 6, 1, 10, 0, 0⟩ (some 0)), none, none, none, some "x"⟩

/-- Counterexample to C6 as stated: with configured timezone UTC+1 (offset
    3600), the naive start of `ev6` and the aware start of `rec6` normalize to
    different instants under the configured-timezone normalization of the
    range filter, yet the Change Detector reports the pair unchanged — it
    localized the naive value into UTC, not into the configured timezone. -/
theorem C6_counterexample :
    event_details_changed ev6 rec6 = false ∧
      dtEq (normalizeSourceTime 3600 ev6.dtstart)
        (normalizeSourceTime 3600 (rec6.dtstart.getD ev6.dtstart)) = false := by
  constructor
  · decide
  · decide

/-- C6 (amended): the range filter normalizes with the configured timezone and
    the Temporal Classifier promotes into the zone of the reference instant,
    but the Change Detector localizes timezone-naive instants into UTC: its
    comparison of two datetime values equals the comparison of their
    normalizations at timezone offset 0, not at the configured offset. -/
theorem C6_detector_normalizes_with_utc (w1 w2 : Wall) (o1 o2 : Option Int) :
    timesDiffer (PyTime.dt w1 o1) (PyTime.dt w2 o2)
      = ! dtEq (normalizeSourceTime 0 (PyTime.dt w1 o1))
          (normalizeSourceTime 0 (PyTime.dt w2 o2)) := by
  cases o1 <;> cases o2 <;>
    simp [timesDiffer, normalizeSourceTime, localize, dtEq, instSec]

/-! Characterization lemmas for the phases of the pass. -/

/-- Source identifier read off a destination record with the empty-string
    default the script uses. -/
def sidOf (r : DestRecord) : String :=
  r.syncId.getD ""

/-- A record qualifies for the orphan phase when its source identifier is
    nonempty and was not produced by any source event of the pass. -/
def orphanCandidate (processed : List String) (r : DestRecord) : Bool :=
  decide (sidOf r ≠ "") && decide (sidOf r ∉ processed)

/-- Orphan-phase records counted as preserved: qualifying and past. -/
def preservedHere (processed : List String) (nw : Wall) (noff : Option Int)
    (r : DestRecord) : Bool :=
  orphanCandidate processed r && is_event_in_past r nw noff

/-- Orphan-phase records on which deletion is attempted: qualifying, not past. -/
def attemptHere (processed : List String) (nw : Wall) (noff : Option Int)
    (r : DestRecord) : Bool :=
  orphanCandidate processed r && ! is_event_in_past r nw noff

/-- The orphan phase is a counting pass and two filters: preserved counts the
    qualifying past records, attempts are the qualifying non-past records, and
    the removals are the attempts whose delete call did not raise. -/
theorem orphanPass_eq (p : List String) (nw : Wall) (noff : Option Int)
    (f : String → Bool) (l : List DestRecord) :
    orphanPass p nw noff f l =
      (l.countP (preservedHere p nw noff),
       l.filter (attemptHere p nw noff),
       l.filter fun r => attemptHere p nw noff r && ! f r.uid) := by
  induction l with
  | nil => rfl
  | cons r rs ih =>
      simp only [orphanPass, ih, List.countP_cons, List.filter_cons]
      by_cases h1 : r.syncId.getD "" ≠ "" ∧ r.syncId.getD "" ∉ p
      · have hc : orphanCandidate p r = true := by
          simp [orphanCandidate, sidOf, h1.1, h1.2]
        rw [if_pos h1]
        by_cases h2 : is_event_in_past r nw noff = true
        · have hp : preservedHere p nw noff r = true := by
            simp [preservedHere, hc, h2]
          have ha : attemptHere p nw noff r = false := by
            simp [attemptHere, hc, h2]
          simp [h2, hp, ha]
        · have h2f : is_event_in_past r nw noff = false := by simpa using h2
          have hp : preservedHere p nw noff r = false := by
            simp [preservedHere, hc, h2f]
          have ha : attemptHere p nw noff r = true := by
            simp [attemptHere, hc, h2f]
          by_cases h3 : f r.uid = true
          · simp [h2f, h3, hp, ha]
          · have h3f : f r.uid = false := by simpa using h3
            simp [h2f, h3f, hp, ha]
      · have hc : orphanCandidate p r = false := by
          simp only [orphanCandidate, Bool.and_eq_false_iff, decide_eq_false_iff_not]
          by_cases hs : r.syncId.getD "" = ""
          · exact Or.inl (by simpa [sidOf] using hs)
          · exact Or.inr fun hm => h1 ⟨hs, by simpa [sidOf] using hm⟩
        rw [if_neg h1]
        simp [preservedHere, attemptHere, hc]

/-- A successful lookup returns a member carrying the looked-up identifier. -/
theorem find_synced_event_mem_sid {l : List DestRecord} {fp : String} {r : DestRecord}
    (h : find_synced_event l fp = some r) : r ∈ l ∧ sidOf r = fp := by
  refine ⟨List.mem_of_find?_eq_some h, ?_⟩
  have := List.find?_some h
  simpa [sidOf] using this

/-- A failed lookup means no member carries the looked-up identifier. -/
theorem find_synced_event_none {l : List DestRecord} {fp : String}
    (h : find_synced_event l fp = none) : ∀ r ∈ l, sidOf r ≠ fp := by
  intro r hr
  have := List.find?_eq_none.mp h r hr
  simpa [sidOf] using this

/-- A member carrying the identifier makes the lookup succeed. -/
theorem find_synced_event_isSome_of_mem {l : List DestRecord} {fp : String} {r : DestRecord}
    (hr : r ∈ l) (hs : sidOf r = fp) : (find_synced_event l fp).isSome := by
  cases hf : find_synced_event l fp with
  | some _ => rfl
  | none => exact absurd hs (find_synced_event_none hf r hr)

/-- With pairwise-distinct identifiers, the lookup returns exactly the member
    carrying the looked-up identifier. -/
theorem find_synced_event_of_nodup {l : List DestRecord} {fp : String} {r : DestRecord}
    (hn : (l.map sidOf).Nodup) (hr : r ∈ l) (hs : sidOf r = fp) :
    find_synced_event l fp = some r := by
  induction l with
  | nil => cases hr
  | cons a as ih =>
      rcases List.mem_cons.mp hr with h | h
      · subst h
        unfold find_synced_event
        rw [List.find?_cons_of_pos]
        simpa [sidOf] using hs
      · have ha : sidOf a ≠ fp := by
          intro hafp
          have hm : sidOf r ∈ as.map sidOf := List.mem_map_of_mem sidOf h
          rw [hs, ← hafp] at hm
          exact (List.nodup_cons.mp hn).1 hm
        have hrec : find_synced_event as fp = some r :=
          ih (List.nodup_cons.mp hn).2 h
        unfold find_synced_event at hrec ⊢
        rw [List.find?_cons_of_neg]
        · exact hrec
        · simpa [sidOf] using ha

/-- A temporal value never differs from itself under the comparison the
    Change Detector performs. -/
theorem timesDiffer_self (v : PyTime) : timesDiffer v v = false := by
  cases v with
  | date d => simp [timesDiffer]
  | dt w o => cases o <;> simp [timesDiffer, dtEq, instSec]

/-- The record the upsert phase writes for a source event never differs from
    that source event in the eyes of the Change Detector. -/
theorem changed_build_false (e : SourceEvent) (t u : String) :
    event_details_changed e (create_or_update_event e t u) = false := by
  unfold event_details_changed create_or_update_event
  cases he : e.dtend <;> simp [timesDiffer_self]

/-- Fingerprints are never the empty string: the identity string always
    contains its underscore separators. -/
theorem gen_ne_empty (e : SourceEvent) : generate_event_identifier e ≠ "" := by
  intro h
  have h2 : (id_string e).data = [] := by
    rw [show id_string e = "" from h]
  rw [id_string_data] at h2
  simp at h2

/-- The written record carries the fingerprint of its source event. -/
theorem build_sid (e : SourceEvent) (t u : String) :
    sidOf (create_or_update_event e t u) = generate_event_identifier e := rfl

/-- Every record the upsert phase creates was built from a source event whose
    fingerprint had no match among the synced destination events. -/
theorem upsert_creates_mem {D : List DestRecord} {t : String} {g : Nat → String}
    {S : List SourceEvent} {k : Nat} {c : DestRecord}
    (hc : c ∈ (upsertPass D t g S k).1) :
    ∃ e ∈ S, find_synced_event D (generate_event_identifier e) = none ∧
      ∃ j, c = create_or_update_event e t (g j) := by
  induction S generalizing k with
  | nil => cases hc
  | cons e es ih =>
      cases hf : find_synced_event D (generate_event_identifier e) with
      | some r =>
          simp only [upsertPass, hf] at hc
          by_cases hch : event_details_changed e r = true
          · rw [if_pos hch] at hc
            obtain ⟨e2, he2, hfe2, j, hj⟩ := ih hc
            exact ⟨e2, List.mem_cons_of_mem e he2, hfe2, j, hj⟩
          · rw [if_neg hch] at hc
            obtain ⟨e2, he2, hfe2, j, hj⟩ := ih hc
            exact ⟨e2, List.mem_cons_of_mem e he2, hfe2, j, hj⟩
      | none =>
          simp only [upsertPass, hf] at hc
          rcases List.mem_cons.mp hc with h | h
          · exact ⟨e, List.mem_cons_self e es, hf, k, h⟩
          · obtain ⟨e2, he2, hfe2, j, hj⟩ := ih h
            exact ⟨e2, List.mem_cons_of_mem e he2, hfe2, j, hj⟩

/-- Every update pair the upsert phase emits joins a matched synced record
    with the record rebuilt from the matching source event, and only when the
    Change Detector reported drift. -/
theorem upsert_updates_mem {D : List DestRecord} {t : String} {g : Nat → String}
    {S : List SourceEvent} {k : Nat} {q : DestRecord × DestRecord}
    (hq : q ∈ (upsertPass D t g S k).2) :
    ∃ e ∈ S, find_synced_event D (generate_event_identifier e) = some q.1 ∧
      event_details_changed e q.1 = true ∧ q.2 = create_or_update_event e t q.1.uid := by
  induction S generalizing k with
  | nil => cases hq
  | cons e es ih =>
      cases hf : find_synced_event D (generate_event_identifier e) with
      | some r =>
          simp only [upsertPass, hf] at hq
          by_cases hch : event_details_changed e r = true
          · rw [if_pos hch] at hq
            rcases List.mem_cons.mp hq with h | h
            · subst h
              exact ⟨e, List.mem_cons_self e es, hf, hch, rfl⟩
            · obtain ⟨e2, he2, hfe2, hch2, hb⟩ := ih h
              exact ⟨e2, List.mem_cons_of_mem e he2, hfe2, hch2, hb⟩
          · rw [if_neg hch] at hq
            obtain ⟨e2, he2, hfe2, hch2, hb⟩ := ih hq
            exact ⟨e2, List.mem_cons_of_mem e he2, hfe2, hch2, hb⟩
      | none =>
          simp only [upsertPass, hf] at hq
          obtain ⟨e2, he2, hfe2, hch2, hb⟩ := ih hq
          exact ⟨e2, List.mem_cons_of_mem e he2, hfe2, hch2, hb⟩

/-- Every source event without a match contributes a created record. -/
theorem upsert_creates_cover {D : List DestRecord} {t : String} {g : Nat → String}
    {S : List SourceEvent} {e : SourceEvent}
    (he : e ∈ S) (hf : find_synced_event D (generate_event_identifier e) = none) :
    ∀ k, ∃ j, create_or_update_event e t (g j) ∈ (upsertPass D t g S k).1 := by
  induction S with
  | nil => cases he
  | cons a as ih =>
      intro k
      rcases List.mem_cons.mp he with h | h
      · subst h
        simp only [upsertPass, hf]
        exact ⟨k, List.mem_cons_self _ _⟩
      · cases hfa : find_synced_event D (generate_event_identifier a) with
        | some r =>
            simp only [upsertPass, hfa]
            by_cases hch : event_details_changed a r = true
            · rw [if_pos hch]
              obtain ⟨j, hj⟩ := ih h k
              exact ⟨j, hj⟩
            · rw [if_neg hch]
              obtain ⟨j, hj⟩ := ih h k
              exact ⟨j, hj⟩
        | none =>
            simp only [upsertPass, hfa]
            obtain ⟨j, hj⟩ := ih h (k + 1)
            exact ⟨j, List.mem_cons_of_mem _ hj⟩

/-- Every matched, drifted source event contributes its update pair. -/
theorem upsert_updates_cover {D : List DestRecord} {t : String} {g : Nat → String}
    {S : List SourceEvent} {e : SourceEvent} {r : DestRecord}
    (he : e ∈ S) (hf : find_synced_event D (generate_event_identifier e) = some r)
    (hch : event_details_changed e r = true) :
    ∀ k, (r, create_or_update_event e t r.uid) ∈ (upsertPass D t g S k).2 := by
  induction S with
  | nil => cases he
  | cons a as ih =>
      intro k
      rcases List.mem_cons.mp he with h | h
      · subst h
        simp only [upsertPass, hf, if_pos hch]
        exact List.mem_cons_self _ _
      · cases hfa : find_synced_event D (generate_event_identifier a) with
        | some r2 =>
            simp only [upsertPass, hfa]
            by_cases hch2 : event_details_changed a r2 = true
            · rw [if_pos hch2]
              exact List.mem_cons_of_mem _ (ih h k)
            · rw [if_neg hch2]
              exact ih h k
        | none =>
            simp only [upsertPass, hfa]
            exact ih h (k + 1)

/-- When every source event finds a match, nothing is created. -/
theorem upsert_creates_nil {D : List DestRecord} {t : String} {g : Nat → String}
    {S : List SourceEvent}
    (h : ∀ e ∈ S, (find_synced_event D (generate_event_identifier e)).isSome) :
    ∀ k, (upsertPass D t g S k).1 = [] := by
  induction S with
  | nil => intro k; rfl
  | cons a as ih =>
      intro k
      cases hfa : find_synced_event D (generate_event_identifier a) with
      | some r =>
          simp only [upsertPass, hfa]
          by_cases hch : event_details_changed a r = true
          · rw [if_pos hch]
            exact ih (fun e he => h e (List.mem_cons_of_mem a he)) k
          · rw [if_neg hch]
            exact ih (fun e he => h e (List.mem_cons_of_mem a he)) k
      | none =>
          have hcontra := h a (List.mem_cons_self a as)
          rw [hfa] at hcontra
          cases hcontra

/-- When every match is reported unchanged, nothing is updated. -/
theorem upsert_updates_nil {D : List DestRecord} {t : String} {g : Nat → String}
    {S : List SourceEvent}
    (h : ∀ e ∈ S, ∀ r, find_synced_event D (generate_event_identifier e) = some r →
      event_details_changed e r = false) :
    ∀ k, (upsertPass D t g S k).2 = [] := by
  induction S with
  | nil => intro k; rfl
  | cons a as ih =>
      intro k
      cases hfa : find_synced_event D (generate_event_identifier a) with
      | some r =>
          have hch : event_details_changed a r = false :=
            h a (List.mem_cons_self a as) r hfa
          simp only [upsertPass, hfa]
          rw [if_neg (by simp [hch])]
          exact ih (fun e he => h e (List.mem_cons_of_mem a he)) k
      | none =>
          simp only [upsertPass, hfa]
          exact ih (fun e he => h e (List.mem_cons_of_mem a he)) (k + 1)

/-- A record of the store that is neither an update target nor removed
    survives the pass verbatim. -/
theorem mem_applyStore_untouched {dest : List DestRecord}
    {upd : List (DestRecord × DestRecord)} {del cr : List DestRecord} {d : DestRecord}
    (hd : d ∈ dest) (hupd : upd.find? (fun p => p.1 = d) = none) (hdel : d ∉ del) :
    d ∈ applyStore dest upd del cr := by
  unfold applyStore
  refine List.mem_append_left _ ?_
  refine List.mem_map.mpr ⟨d, ?_, ?_⟩
  · exact List.mem_filter.mpr ⟨hd, by simpa using hdel⟩
  · simp [updFn, hupd]

/-- Counting with a predicate that is false at a value is blind to that value. -/
theorem countP_filter_ne {α : Type} [DecidableEq α] (p : α → Bool) (r : α)
    (hp : p r = false) (l : List α) :
    l.countP p = (l.filter fun x => decide (x ≠ r)).countP p := by
  induction l with
  | nil => rfl
  | cons a as ih =>
      by_cases ha : a = r
      · subst ha
        simp [List.countP_cons, List.filter_cons, hp, ih]
      · simp [List.countP_cons, List.filter_cons, ha, ih]

/-- Reference instant 2023-06-01 12:00:00 used by concrete runs. -/
def nowW : Wall := ⟨2023, 6, 1, 12, 0, 0⟩

/-- Sync-managed record whose identifier property is present but empty and
    whose event ended 2023-01-01, before `nowW`. -/
def recPastEmpty : DestRecord :=
  ⟨"u1", some "T", some (PyTime.dt ⟨2023, 1, 1, 9, 0, 0⟩ (some 0)),
    some (PyTime.dt ⟨2023, 1, 1, 10, 0, 0⟩ (some 0)), none, none, some ""⟩

/-- Sync-managed record whose identifier property is present but empty and
    whose event ends 2023-12-01, after `nowW`. -/
def recFutEmpty : DestRecord :=
  ⟨"u2", some "T", some (PyTime.dt ⟨2023, 12, 1, 9, 0, 0⟩ (some 0)),
    some (PyTime.dt ⟨2023, 12, 1, 10, 0, 0⟩ (some 0)), none, none, some ""⟩

/-- Sync-managed record with a nonempty identifier whose event ended
    2023-01-01, before `nowW`. -/
def recPastF : DestRecord :=
  ⟨"u3", some "T", some (PyTime.dt ⟨2023, 1, 1, 9, 0, 0⟩ (some 0)),
    some (PyTime.dt ⟨2023, 1, 1, 10, 0, 0⟩ (some 0)), none, none, some "fp-old"⟩

/-- Sync-managed record with a nonempty identifier whose event ends
    2023-12-01, after `nowW`. -/
def recFutF : DestRecord :=
  ⟨"u4", some "T", some (PyTime.dt ⟨2023, 12, 1, 9, 0, 0⟩ (some 0)),
    some (PyTime.dt ⟨2023, 12, 1, 10, 0, 0⟩ (some 0)), none, none, some "fp-live"⟩

/-- C10: a destination record whose X-SYNC-SOURCE-IDENTIFIER property is
    present but equal to the empty string is completely untouched by the pass:
    it is never an update target, never a delete attempt, never removed, it
    survives in the store verbatim, and the preserved tally is computed
    entirely from the other records, so it is never counted. -/
theorem C10_empty_identifier_untouched (t : String) (tz : Int) (dh : Nat) (now : Wall)
    (cal : List SourceEvent) (dest : List DestRecord) (f : String → Bool) (g : Nat → String)
    (r : DestRecord) (hsid : r.syncId = some "") (hmem : r ∈ dest) :
    (∀ q ∈ (sync_calendars t tz dh now cal dest f g).updates, q.1 ≠ r) ∧
    r ∉ (sync_calendars t tz dh now cal dest f g).deleteAttempts ∧
    r ∉ (sync_calendars t tz dh now cal dest f g).deleted ∧
    r ∈ (sync_calendars t tz dh now cal dest f g).finalDest ∧
    (sync_calendars t tz dh now cal dest f g).preserved =
      List.countP
        (preservedHere
          ((get_source_events cal (now, some tz) (addDays now dh, some tz) tz).map
            generate_event_identifier) now (some tz))
        ((get_dest_events dest t).filter fun x => decide (x ≠ r)) := by
  have hsid0 : sidOf r = "" := by simp [sidOf, hsid]
  have hcand : ∀ p0, orphanCandidate p0 r = false := by
    intro p0
    simp [orphanCandidate, hsid0]
  have hupd : ∀ q ∈ (sync_calendars t tz dh now cal dest f g).updates, q.1 ≠ r := by
    intro q hq heq
    simp only [sync_calendars] at hq
    obtain ⟨e, _, hfe, _, _⟩ := upsert_updates_mem hq
    have := (find_synced_event_mem_sid hfe).2
    rw [heq, hsid0] at this
    exact gen_ne_empty e this.symm
  refine ⟨hupd, ?_, ?_, ?_, ?_⟩
  · intro hmem2
    simp only [sync_calendars, orphanPass_eq] at hmem2
    have := (List.mem_filter.mp hmem2).2
    simp [attemptHere, hcand] at this
  · intro hmem2
    simp only [sync_calendars, orphanPass_eq] at hmem2
    have := (List.mem_filter.mp hmem2).2
    simp [attemptHere, hcand] at this
  · simp only [sync_calendars] at hupd ⊢
    refine mem_applyStore_untouched hmem ?_ ?_
    · exact List.find?_eq_none.mpr fun q hq => by simpa using hupd q hq
    · intro hmem2
      rw [orphanPass_eq] at hmem2
      have := (List.mem_filter.mp hmem2).2
      simp [attemptHere, hcand] at this
  · simp only [sync_calendars, orphanPass_eq]
    exact countP_filter_ne _ r (by simp [preservedHere, hcand]) _

/-- Witness for C10: the empty-identifier past record survives the concrete
    run untouched. -/
theorem C10_empty_identifier_untouched_witness :
    recPastEmpty ∈
      (sync_calendars "T" 0 30 nowW [] [recPastEmpty]
        (fun _ => false) (fun _ => "u")).finalDest :=
  (C10_empty_identifier_untouched "T" 0 30 nowW [] [recPastEmpty]
    (fun _ => false) (fun _ => "u") recPastEmpty rfl (by decide)).2.2.2.1

/-- Counterexample to C1 as stated: `recPastEmpty` is sync-managed and past,
    and its (empty) identifier is absent from the processed set, yet the
    concrete pass counts nothing as preserved — the claim says it would be
    counted. -/
theorem C1_counterexample :
    recPastEmpty ∈ get_dest_events [recPastEmpty] "T" ∧
    is_event_in_past recPastEmpty nowW (some 0) = true ∧
    recPastEmpty.syncId.getD "" ∉
      ((get_source_events [] (nowW, some 0) (addDays nowW 30, some 0) 0).map
        generate_event_identifier) ∧
    (sync_calendars "T" 0 30 nowW [] [recPastEmpty]
      (fun _ => false) (fun _ => "u")).preserved = 0 := by
  refine ⟨by decide, by decide, by decide, by decide⟩

/-- C1 (amended): a sync-managed destination record with a NONEMPTY
    fingerprint that the Temporal Classifier marks past and whose fingerprint
    is absent from the processed set is never a delete attempt, never removed,
    never an update target, survives the pass verbatim, and contributes to a
    positive preserved tally.  (A record whose fingerprint property is empty
    is also retained untouched but is skipped, not counted — see C10.) -/
theorem C1_past_retention (t : String) (tz : Int) (dh : Nat) (now : Wall)
    (cal : List SourceEvent) (dest : List DestRecord) (f : String → Bool) (g : Nat → String)
    (r : DestRecord)
    (hmem : r ∈ get_dest_events dest t)
    (hs : sidOf r ≠ "")
    (hnp : sidOf r ∉ ((get_source_events cal (now, some tz) (addDays now dh, some tz) tz).map
      generate_event_identifier))
    (hpast : is_event_in_past r now (some tz) = true) :
    r ∉ (sync_calendars t tz dh now cal dest f g).deleteAttempts ∧
    r ∉ (sync_calendars t tz dh now cal dest f g).deleted ∧
    (∀ q ∈ (sync_calendars t tz dh now cal dest f g).updates, q.1 ≠ r) ∧
    r ∈ (sync_calendars t tz dh now cal dest f g).finalDest ∧
    0 < (sync_calendars t tz dh now cal dest f g).preserved := by
  have hatt : attemptHere
      ((get_source_events cal (now, some tz) (addDays now dh, some tz) tz).map
        generate_event_identifier) now (some tz) r = false := by
    simp [attemptHere, hpast]
  have hupd : ∀ q ∈ (sync_calendars t tz dh now cal dest f g).updates, q.1 ≠ r := by
    intro q hq heq
    simp only [sync_calendars] at hq
    obtain ⟨e, he, hfe, _, _⟩ := upsert_updates_mem hq
    have hq1 := (find_synced_event_mem_sid hfe).2
    rw [heq] at hq1
    exact hnp (hq1 ▸ List.mem_map_of_mem generate_event_identifier he)
  refine ⟨?_, ?_, hupd, ?_, ?_⟩
  · intro hmem2
    simp only [sync_calendars, orphanPass_eq] at hmem2
    have := (List.mem_filter.mp hmem2).2
    rw [hatt] at this
    cases this
  · intro hmem2
    simp only [sync_calendars, orphanPass_eq] at hmem2
    have := (List.mem_filter.mp hmem2).2
    simp only [hatt, Bool.false_and] at this
    cases this
  · simp only [sync_calendars] at hupd ⊢
    refine mem_applyStore_untouched (List.mem_filter.mp hmem).1 ?_ ?_
    · exact List.find?_eq_none.mpr fun q hq => by simpa using hupd q hq
    · intro hmem2
      rw [orphanPass_eq] at hmem2
      have := (List.mem_filter.mp hmem2).2
      simp only [hatt, Bool.false_and] at this
      cases this
  · simp only [sync_calendars, orphanPass_eq]
    refine List.countP_pos_iff.mpr ⟨r, hmem, ?_⟩
    simp [preservedHere, orphanCandidate, hs, hnp, hpast]

/-- Witness for amended C1: the concrete past orphan `recPastF` yields a
    positive preserved tally. -/
theorem C1_past_retention_witness :
    0 < (sync_calendars "T" 0 30 nowW [] [recPastF]
      (fun _ => false) (fun _ => "u")).preserved :=
  (C1_past_retention "T" 0 30 nowW [] [recPastF] (fun _ => false) (fun _ => "u")
    recPastF (by decide) (by decide) (by decide) (by decide)).2.2.2.2

/-- Counterexample to C3 as stated: `recFutEmpty` is sync-managed, not past,
    and its (empty) identifier is absent from the processed set, yet the
    concrete pass performs no delete attempt at all — the claim says it would
    be deleted exactly once. -/
theorem C3_counterexample :
    recFutEmpty ∈ get_dest_events [recFutEmpty] "T" ∧
    is_event_in_past recFutEmpty nowW (some 0) = false ∧
    recFutEmpty.syncId.getD "" ∉
      ((get_source_events [] (nowW, some 0) (addDays nowW 30, some 0) 0).map
        generate_event_identifier) ∧
    (sync_calendars "T" 0 30 nowW [] [recFutEmpty]
      (fun _ => false) (fun _ => "u")).deleteAttempts = [] := by
  refine ⟨by decide, by decide, by decide, by decide⟩

/-- C3 (amended): a sync-managed destination record with a NONEMPTY
    fingerprint, not marked past, whose fingerprint is absent from the
    processed set, receives exactly one store delete call, and this holds for
    EVERY failure oracle — a raised deletion error neither prevents the other
    qualifying records from being attempted nor changes the overall pass
    result, which is True regardless.  (A record whose fingerprint property is
    empty is skipped — see C10.) -/
theorem C3_orphan_deleted_once (t : String) (tz : Int) (dh : Nat) (now : Wall)
    (cal : List SourceEvent) (dest : List DestRecord) (f : String → Bool) (g : Nat → String)
    (r : DestRecord)
    (hcount : (get_dest_events dest t).count r = 1)
    (hs : sidOf r ≠ "")
    (hnp : sidOf r ∉ ((get_source_events cal (now, some tz) (addDays now dh, some tz) tz).map
      generate_event_identifier))
    (hnotpast : is_event_in_past r now (some tz) = false) :
    (sync_calendars t tz dh now cal dest f g).deleteAttempts.count r = 1 ∧
    (sync_calendars t tz dh now cal dest f g).ok = true := by
  constructor
  · simp only [sync_calendars, orphanPass_eq]
    rw [List.count_filter (by simp [attemptHere, orphanCandidate, hs, hnp, hnotpast])]
    exact hcount
  · rfl

/-- Witness for amended C3: the concrete non-past orphan `recFutF` receives
    exactly one delete call even when every delete call raises. -/
theorem C3_orphan_deleted_once_witness :
    (sync_calendars "T" 0 30 nowW [] [recFutF]
      (fun _ => true) (fun _ => "u")).deleteAttempts.count recFutF = 1 :=
  (C3_orphan_deleted_once "T" 0 30 nowW [] [recFutF] (fun _ => true) (fun _ => "u")
    recFutF (by decide) (by decide) (by decide) (by decide)).1

/-- Managed-record test of `get_dest_events` as a standalone predicate. -/
def mgd (t : String) (r : DestRecord) : Bool :=
  decide (r.summary.getD "" = t ∧ r.syncId.isSome)

theorem get_dest_events_eq_filter (dest : List DestRecord) (t : String) :
    get_dest_events dest t = dest.filter (mgd t) := rfl

/-- The created records carry, in order, the fingerprints of the source events
    that found no match. -/
theorem upsert_creates_sids (D : List DestRecord) (t : String) (g : Nat → String)
    (S : List SourceEvent) :
    ∀ k, (upsertPass D t g S k).1.map sidOf =
      (S.filter fun e => (find_synced_event D (generate_event_identifier e)).isNone).map
        generate_event_identifier := by
  induction S with
  | nil => intro k; rfl
  | cons a as ih =>
      intro k
      cases hfa : find_synced_event D (generate_event_identifier a) with
      | some r =>
          simp only [upsertPass, hfa, List.filter_cons]
          by_cases hch : event_details_changed a r = true
          · rw [if_pos hch]
            simpa [hfa] using ih k
          · rw [if_neg hch]
            simpa [hfa] using ih k
      | none =>
          simp only [upsertPass, hfa, List.filter_cons]
          simpa [hfa, sidOf, create_or_update_event] using ih (k + 1)

/-- With pairwise-distinct source fingerprints, two update pairs with the same
    matched record are the same pair. -/
theorem upsert_updates_firsts_inj {D : List DestRecord} {t : String} {g : Nat → String}
    {S : List SourceEvent} {k : Nat}
    (hS : (S.map generate_event_identifier).Nodup) :
    ∀ p ∈ (upsertPass D t g S k).2, ∀ q ∈ (upsertPass D t g S k).2, p.1 = q.1 → p = q := by
  intro p hp q hq h1
  obtain ⟨e1, he1, hf1, _, hb1⟩ := upsert_updates_mem hp
  obtain ⟨e2, he2, hf2, _, hb2⟩ := upsert_updates_mem hq
  have hs1 := (find_synced_event_mem_sid hf1).2
  have hs2 := (find_synced_event_mem_sid hf2).2
  have hge : generate_event_identifier e1 = generate_event_identifier e2 := by
    rw [← hs1, ← hs2, h1]
  have he : e1 = e2 := List.inj_on_of_nodup_map hS he1 he2 hge
  have h2 : p.2 = q.2 := by rw [hb1, hb2, h1, he]
  cases p
  cases q
  simp_all

/-- With pairwise-distinct first components, the lookup of a member by its
    first component returns that member. -/
theorem find?_first_of_inj {l : List (DestRecord × DestRecord)}
    {pr : DestRecord × DestRecord}
    (hinj : ∀ p ∈ l, ∀ q ∈ l, p.1 = q.1 → p = q) (hm : pr ∈ l) :
    l.find? (fun p => p.1 = pr.1) = some pr := by
  induction l with
  | nil => cases hm
  | cons a as ih =>
      by_cases ha : a.1 = pr.1
      · have haeq : a = pr := hinj a (List.mem_cons_self a as) pr hm ha
        rw [List.find?_cons_of_pos _ (by simpa using ha), haeq]
      · have hm2 : pr ∈ as := by
          rcases List.mem_cons.mp hm with h | h
          · exact absurd (congrArg Prod.fst h).symm ha
          · exact h
        rw [List.find?_cons_of_neg _ (by simpa using ha)]
        exact ih
          (fun p hp q hq => hinj p (List.mem_cons_of_mem a hp) q (List.mem_cons_of_mem a hq))
          hm2

/-- In-place update never changes the stored fingerprint. -/
theorem updFn_sid (D : List DestRecord) (t : String) (g : Nat → String)
    (S : List SourceEvent) (k : Nat) (d : DestRecord) :
    sidOf (updFn (upsertPass D t g S k).2 d) = sidOf d := by
  cases hf : (upsertPass D t g S k).2.find? (fun p => p.1 = d) with
  | none => simp only [updFn, hf]
  | some p =>
      simp only [updFn, hf]
      have hp1 : p.1 = d := by simpa using List.find?_some hf
      obtain ⟨e, _, hfe, _, hb⟩ := upsert_updates_mem (List.mem_of_find?_eq_some hf)
      have hs : sidOf p.2 = generate_event_identifier e := by
        rw [hb]
        rfl
      rw [hs, ← (find_synced_event_mem_sid hfe).2, hp1]

/-- In-place update never changes whether a record is sync-managed, as long as
    the matched records came from the sync-managed set. -/
theorem updFn_mgd (D : List DestRecord) (t : String) (g : Nat → String)
    (S : List SourceEvent) (k : Nat)
    (hD : ∀ r ∈ D, mgd t r = true) (d : DestRecord) :
    mgd t (updFn (upsertPass D t g S k).2 d) = mgd t d := by
  cases hf : (upsertPass D t g S k).2.find? (fun p => p.1 = d) with
  | none => simp only [updFn, hf]
  | some p =>
      simp only [updFn, hf]
      have hp1 : p.1 = d := by simpa using List.find?_some hf
      obtain ⟨e, _, hfe, _, hb⟩ := upsert_updates_mem (List.mem_of_find?_eq_some hf)
      have h2 : mgd t p.2 = true := by
        rw [hb]
        simp [mgd, create_or_update_event]
      have h1 : mgd t d = true := by
        rw [← hp1]
        exact hD p.1 (find_synced_event_mem_sid hfe).1
      rw [h2, h1]

/-- Created records are sync-managed. -/
theorem upsert_creates_mgd {D : List DestRecord} {t : String} {g : Nat → String}
    {S : List SourceEvent} {k : Nat} {c : DestRecord}
    (hc : c ∈ (upsertPass D t g S k).1) : mgd t c = true := by
  obtain ⟨e, _, _, j, hj⟩ := upsert_creates_mem hc
  rw [hj]
  simp [mgd, create_or_update_event]

/-- The sync-managed records after the pass are the sync-managed records
    before it, minus removals, updated in place, plus the created records. -/
theorem gde_applyStore (dest : List DestRecord) (t : String) (g : Nat → String)
    (S : List SourceEvent) (k : Nat) (del : List DestRecord) :
    get_dest_events
      (applyStore dest (upsertPass (get_dest_events dest t) t g S k).2 del
        (upsertPass (get_dest_events dest t) t g S k).1) t =
    (((get_dest_events dest t).filter fun d => decide (d ∉ del)).map
        (updFn (upsertPass (get_dest_events dest t) t g S k).2)) ++
      (upsertPass (get_dest_events dest t) t g S k).1 := by
  have hD : ∀ r ∈ get_dest_events dest t, mgd t r = true := by
    intro r hr
    rw [get_dest_events_eq_filter] at hr
    exact (List.mem_filter.mp hr).2
  rw [get_dest_events_eq_filter, get_dest_events_eq_filter]
  unfold applyStore
  rw [List.filter_append]
  congr 1
  · rw [List.filter_map]
    congr 1
    have h1 : List.filter
        (mgd t ∘ updFn (upsertPass (List.filter (mgd t) dest) t g S k).2)
        (List.filter (fun d => decide (d ∉ del)) dest)
        = List.filter (mgd t) (List.filter (fun d => decide (d ∉ del)) dest) :=
      List.filter_congr fun x _ => updFn_mgd (dest.filter (mgd t)) t g S k hD x
    rw [h1]
    exact List.filter_comm _ _ _
  · exact List.filter_eq_self.mpr fun c hc => upsert_creates_mgd hc

/-- Fingerprints of created records all come from the processed set. -/
theorem upsert_creates_sid_mem {D : List DestRecord} {t : String} {g : Nat → String}
    {S : List SourceEvent} {k : Nat} {c : DestRecord}
    (hc : c ∈ (upsertPass D t g S k).1) :
    sidOf c ∈ S.map generate_event_identifier := by
  obtain ⟨e, he, _, j, hj⟩ := upsert_creates_mem hc
  rw [hj]
  exact List.mem_map_of_mem generate_event_identifier he

/-- After the upsert phase is applied to the store, every source event owns a
    sync-managed record carrying its fingerprint that the Change Detector
    reports unchanged — provided source fingerprints are pairwise distinct and
    the removals only touched fingerprints outside the processed set. -/
theorem exists_good_record (dest : List DestRecord) (t : String) (g : Nat → String)
    (S : List SourceEvent) (k : Nat) (del : List DestRecord)
    (hS : (S.map generate_event_identifier).Nodup)
    (hdel : ∀ d ∈ del, sidOf d ∉ S.map generate_event_identifier)
    {e : SourceEvent} (he : e ∈ S) :
    ∃ r ∈ get_dest_events
      (applyStore dest (upsertPass (get_dest_events dest t) t g S k).2 del
        (upsertPass (get_dest_events dest t) t g S k).1) t,
      sidOf r = generate_event_identifier e ∧ event_details_changed e r = false := by
  rw [gde_applyStore]
  cases hf : find_synced_event (get_dest_events dest t) (generate_event_identifier e) with
  | none =>
      obtain ⟨j, hj⟩ := upsert_creates_cover he hf k
      exact ⟨create_or_update_event e t (g j), List.mem_append_right _ hj,
        rfl, changed_build_false e t _⟩
  | some r0 =>
      obtain ⟨hr0m, hs0⟩ := find_synced_event_mem_sid hf
      have hQ : r0 ∉ del := fun hin =>
        hdel r0 hin (hs0 ▸ List.mem_map_of_mem generate_event_identifier he)
      have hr0f : r0 ∈ (get_dest_events dest t).filter fun d => decide (d ∉ del) :=
        List.mem_filter.mpr ⟨hr0m, by simpa using hQ⟩
      by_cases hch : event_details_changed e r0 = true
      · have hpr := upsert_updates_cover (t := t) (g := g) he hf hch k
        have hfind : (upsertPass (get_dest_events dest t) t g S k).2.find?
            (fun p => p.1 = r0) = some (r0, create_or_update_event e t r0.uid) :=
          find?_first_of_inj (upsert_updates_firsts_inj hS) hpr
        refine ⟨create_or_update_event e t r0.uid, ?_, rfl, changed_build_false e t _⟩
        refine List.mem_append_left _ (List.mem_map.mpr ⟨r0, hr0f, ?_⟩)
        simp only [updFn, hfind]
      · have hfind : (upsertPass (get_dest_events dest t) t g S k).2.find?
            (fun p => p.1 = r0) = none := by
          refine List.find?_eq_none.mpr fun q hq => ?_
          simp only [decide_eq_true_eq]
          intro hq1
          obtain ⟨e2, he2, hfe2, hch2, _⟩ := upsert_updates_mem hq
          rw [hq1] at hfe2 hch2
          have hgeq : generate_event_identifier e2 = generate_event_identifier e := by
            rw [← (find_synced_event_mem_sid hfe2).2, hs0]
          have : e2 = e := List.inj_on_of_nodup_map hS he2 he hgeq
          rw [this] at hch2
          exact hch hch2
        refine ⟨r0, ?_, hs0, by simpa using hch⟩
        refine List.mem_append_left _ (List.mem_map.mpr ⟨r0, hr0f, ?_⟩)
        simp only [updFn, hfind]

/-- The pass preserves pairwise distinctness of the stored fingerprints, for
    any set of removals: updates keep fingerprints in place and creates only
    add fingerprints that had no match in the store. -/
theorem final_sids_nodup (dest : List DestRecord) (t : String) (g : Nat → String)
    (S : List SourceEvent) (k : Nat) (del : List DestRecord)
    (hS : (S.map generate_event_identifier).Nodup)
    (hD : ((get_dest_events dest t).map sidOf).Nodup) :
    ((get_dest_events
      (applyStore dest (upsertPass (get_dest_events dest t) t g S k).2 del
        (upsertPass (get_dest_events dest t) t g S k).1) t).map sidOf).Nodup := by
  rw [gde_applyStore, List.map_append]
  have hmm : ((((get_dest_events dest t).filter fun d => decide (d ∉ del)).map
      (updFn (upsertPass (get_dest_events dest t) t g S k).2)).map sidOf)
      = ((get_dest_events dest t).filter fun d => decide (d ∉ del)).map sidOf := by
    rw [List.map_map]
    exact List.map_congr_left fun d _ => updFn_sid (get_dest_events dest t) t g S k d
  refine List.nodup_append.mpr ⟨?_, ?_, ?_⟩
  · rw [hmm]
    exact hD.sublist (List.Sublist.map sidOf (List.filter_sublist _))
  · rw [upsert_creates_sids]
    exact hS.sublist (List.Sublist.map generate_event_identifier (List.filter_sublist _))
  · intro a ha hb
    rw [hmm] at ha
    obtain ⟨d, hd, hda⟩ := List.mem_map.mp ha
    rw [upsert_creates_sids] at hb
    obtain ⟨e, hef, hea⟩ := List.mem_map.mp hb
    obtain ⟨heS, hnone⟩ := List.mem_filter.mp hef
    have hnone2 : find_synced_event (get_dest_events dest t)
        (generate_event_identifier e) = none := by
      simpa using hnone
    have hd1 : d ∈ get_dest_events dest t := (List.mem_filter.mp hd).1
    exact find_synced_event_none hnone2 d hd1 (by rw [hda, ← hea])

/-- Core of the idempotence argument, stated over the store produced by one
    pass: with pairwise-distinct source fingerprints, pairwise-distinct stored
    fingerprints, and a first pass whose delete calls all succeeded, a second
    upsert phase creates nothing and updates nothing, and a second orphan
    phase attempts no deletion. -/
theorem second_run_core (dest : List DestRecord) (t : String) (g1 g2 : Nat → String)
    (S : List SourceEvent) (nw : Wall) (noff : Option Int)
    (hS : (S.map generate_event_identifier).Nodup)
    (hD : ((get_dest_events dest t).map sidOf).Nodup) :
    (upsertPass (get_dest_events (applyStore dest
        (upsertPass (get_dest_events dest t) t g1 S 0).2
        ((get_dest_events dest t).filter fun r =>
          attemptHere (S.map generate_event_identifier) nw noff r &&
            ! (fun _ : String => false) r.uid)
        (upsertPass (get_dest_events dest t) t g1 S 0).1) t) t g2 S 0).1 = [] ∧
    (upsertPass (get_dest_events (applyStore dest
        (upsertPass (get_dest_events dest t) t g1 S 0).2
        ((get_dest_events dest t).filter fun r =>
          attemptHere (S.map generate_event_identifier) nw noff r &&
            ! (fun _ : String => false) r.uid)
        (upsertPass (get_dest_events dest t) t g1 S 0).1) t) t g2 S 0).2 = [] ∧
    (get_dest_events (applyStore dest
        (upsertPass (get_dest_events dest t) t g1 S 0).2
        ((get_dest_events dest t).filter fun r =>
          attemptHere (S.map generate_event_identifier) nw noff r &&
            ! (fun _ : String => false) r.uid)
        (upsertPass (get_dest_events dest t) t g1 S 0).1) t).filter
      (attemptHere (S.map generate_event_identifier) nw noff) = [] := by
  have hdel : ∀ d ∈ (get_dest_events dest t).filter fun r =>
      attemptHere (S.map generate_event_identifier) nw noff r &&
        ! (fun _ : String => false) r.uid,
      sidOf d ∉ S.map generate_event_identifier := by
    intro d hd
    have h2 := (List.mem_filter.mp hd).2
    have h3 : attemptHere (S.map generate_event_identifier) nw noff d = true :=
      (Bool.and_eq_true_iff.mp h2).1
    have h4 := (Bool.and_eq_true_iff.mp ((Bool.and_eq_true_iff.mp h3).1)).2
    exact of_decide_eq_true h4
  have hex : ∀ {e : SourceEvent}, e ∈ S →
      ∃ r ∈ get_dest_events (applyStore dest
        (upsertPass (get_dest_events dest t) t g1 S 0).2
        ((get_dest_events dest t).filter fun r =>
          attemptHere (S.map generate_event_identifier) nw noff r &&
            ! (fun _ : String => false) r.uid)
        (upsertPass (get_dest_events dest t) t g1 S 0).1) t,
      sidOf r = generate_event_identifier e ∧ event_details_changed e r = false :=
    fun he => exists_good_record dest t g1 S 0 _ hS hdel he
  have hnd := final_sids_nodup dest t g1 S 0
    ((get_dest_events dest t).filter fun r =>
      attemptHere (S.map generate_event_identifier) nw noff r &&
        ! (fun _ : String => false) r.uid) hS hD
  refine ⟨?_, ?_, ?_⟩
  · apply upsert_creates_nil
    intro e he
    obtain ⟨r, hr, hsid, _⟩ := hex he
    exact find_synced_event_isSome_of_mem hr hsid
  · apply upsert_updates_nil
    intro e he r hfind
    obtain ⟨r2, hr2, hs2, hch2⟩ := hex he
    have hfind2 := find_synced_event_of_nodup hnd hr2 hs2
    rw [hfind] at hfind2
    injection hfind2 with hrr
    rw [hrr]
    exact hch2
  · rw [List.filter_eq_nil_iff]
    intro r hr
    rw [gde_applyStore] at hr
    rcases List.mem_append.mp hr with h | h
    · obtain ⟨d, hdf, hupd⟩ := List.mem_map.mp h
      cases hfind : (upsertPass (get_dest_events dest t) t g1 S 0).2.find?
          (fun p => p.1 = d) with
      | some p =>
          have hru : r = p.2 := by
            rw [← hupd]
            simp only [updFn, hfind]
          obtain ⟨e2, he2, _, _, hb⟩ := upsert_updates_mem (List.mem_of_find?_eq_some hfind)
          have hsid : sidOf r ∈ S.map generate_event_identifier := by
            rw [hru, hb]
            exact List.mem_map_of_mem generate_event_identifier he2
          simp [attemptHere, orphanCandidate, hsid]
      | none =>
          have hrd : r = d := by
            rw [← hupd]
            simp only [updFn, hfind]
          have hd1 : d ∈ get_dest_events dest t := (List.mem_filter.mp hdf).1
          have hQ := (List.mem_filter.mp hdf).2
          by_cases hatt : attemptHere (S.map generate_event_identifier) nw noff d = true
          · exfalso
            have hdel2 : d ∈ (get_dest_events dest t).filter fun x =>
                attemptHere (S.map generate_event_identifier) nw noff x &&
                  ! (fun _ : String => false) x.uid :=
              List.mem_filter.mpr ⟨hd1, by simp [hatt]⟩
            exact (of_decide_eq_true hQ) hdel2
          · rw [hrd]
            simpa using hatt
    · have hsid := upsert_creates_sid_mem h
      simp [attemptHere, orphanCandidate, hsid]

/-- C2 (amended): provided no two source events in the candidate set yield the
    same fingerprint, the sync-managed records initially carry pairwise
    distinct identifier values, and the first run's delete calls all succeed,
    a second run of the full pass against the unchanged source feed, the store
    left by the first run, and the same reference instant performs zero
    creates, zero updates, and zero delete attempts, for any fresh-UID supply
    and any deletion-failure oracle of the second run. -/
theorem C2_second_run_no_actions (t : String) (tz : Int) (dh : Nat) (now : Wall)
    (cal : List SourceEvent) (dest : List DestRecord) (g1 g2 : Nat → String)
    (f2 : String → Bool)
    (hS : ((get_source_events cal (now, some tz) (addDays now dh, some tz) tz).map
      generate_event_identifier).Nodup)
    (hD : ((get_dest_events dest t).map sidOf).Nodup) :
    (sync_calendars t tz dh now cal
      (sync_calendars t tz dh now cal dest (fun _ => false) g1).finalDest f2 g2).creates = [] ∧
    (sync_calendars t tz dh now cal
      (sync_calendars t tz dh now cal dest (fun _ => false) g1).finalDest f2 g2).updates = [] ∧
    (sync_calendars t tz dh now cal
      (sync_calendars t tz dh now cal dest (fun _ => false) g1).finalDest f2 g2).deleteAttempts
      = [] := by
  have hcore := second_run_core dest t g1 g2
    (get_source_events cal (now, some tz) (addDays now dh, some tz) tz) now (some tz) hS hD
  simp only [sync_calendars, orphanPass_eq]
  exact hcore

/-- Timed source event inside the window of the concrete runs. -/
def evStandup : SourceEvent :=
  ⟨some "u-s", PyTime.dt ⟨2023, 6, 5, 10, 0, 0⟩ (some 0),
    some (PyTime.dt ⟨2023, 6, 5, 11, 0, 0⟩ (some 0)), some "Standup", some "Room A", none⟩

/-- Witness for amended C2: a concrete second run over the store left by a
    first run creates nothing. -/
theorem C2_second_run_no_actions_witness :
    (sync_calendars "Norm" 0 30 nowW [evStandup]
      (sync_calendars "Norm" 0 30 nowW [evStandup] [] (fun _ => false)
        (fun k => toString k)).finalDest (fun _ => false) (fun k => toString k)).creates = [] :=
  (C2_second_run_no_actions "Norm" 0 30 nowW [evStandup] [] (fun k => toString k)
    (fun k => toString k) (fun _ => false) (by decide) (by decide)).1

/-- Source event whose fingerprint collides with that of `evF2` (identical
    start, end, title and location, different description). -/
def evF1 : SourceEvent :=
  ⟨none, PyTime.dt ⟨2023, 6, 5, 10, 0, 0⟩ (some 0), none, some "S", none, some "a"⟩

/-- Source event whose fingerprint collides with that of `evF1`. -/
def evF2 : SourceEvent :=
  ⟨none, PyTime.dt ⟨2023, 6, 5, 10, 0, 0⟩ (some 0), none, some "S", none, some "b"⟩

/-- Counterexample to C2 as stated: with the two distinct source events `evF1`
    and `evF2` sharing one fingerprint, a second run over the store left by
    the first run still performs an update (the two created records fight over
    the first one carrying the fingerprint). -/
theorem C2_counterexample :
    evF1 ≠ evF2 ∧
    (sync_calendars "T" 0 30 nowW [evF1, evF2]
      (sync_calendars "T" 0 30 nowW [evF1, evF2] [] (fun _ => false)
        (fun k => toString k)).finalDest (fun _ => false) (fun k => toString k)).updates ≠ [] := by
  constructor
  · decide
  · decide

/-- C9 (amended): provided the sync-managed records initially carry pairwise
    distinct identifier values and no two source events in the candidate set
    yield the same fingerprint, after the pass the sync-managed records still
    carry pairwise distinct identifier values — at most one record per
    fingerprint — under every deletion-failure oracle. -/
theorem C9_fingerprint_at_most_once (t : String) (tz : Int) (dh : Nat) (now : Wall)
    (cal : List SourceEvent) (dest : List DestRecord) (f : String → Bool) (g : Nat → String)
    (hS : ((get_source_events cal (now, some tz) (addDays now dh, some tz) tz).map
      generate_event_identifier).Nodup)
    (hD : ((get_dest_events dest t).map sidOf).Nodup) :
    ((get_dest_events (sync_calendars t tz dh now cal dest f g).finalDest t).map
      sidOf).Nodup := by
  simp only [sync_calendars]
  exact final_sids_nodup dest t g _ 0 _ hS hD

/-- Witness for amended C9: after a concrete run the stored identifiers are
    pairwise distinct. -/
theorem C9_fingerprint_at_most_once_witness :
    ((get_dest_events (sync_calendars "T" 0 30 nowW [evF1] [] (fun _ => false)
      (fun k => toString k)).finalDest "T").map sidOf).Nodup :=
  C9_fingerprint_at_most_once "T" 0 30 nowW [evF1] [] (fun _ => false)
    (fun k => toString k) (by decide) (by decide)

/-- Counterexample to C9 as stated: the pass in which the two distinct source
    events `evF1` and `evF2` yield the same fingerprint leaves TWO sync-managed
    records carrying that fingerprint. -/
theorem C9_counterexample :
    evF1 ≠ evF2 ∧
    generate_event_identifier evF1 = generate_event_identifier evF2 ∧
    ¬ ((get_dest_events (sync_calendars "T" 0 30 nowW [evF1, evF2] []
      (fun _ => false) (fun k => toString k)).finalDest "T").map sidOf).Nodup := by
  refine ⟨by decide, by decide, by decide⟩
